import Mathlib

/-!
Verification of the Jobly SQL-building helpers.

This file embeds, as Lean functions, the pure string-building core of the
repository:

* `sqlForPartialUpdate` from `helpers/sql.js`;
* the private static method `Company.#filterAll` from `models/company.js`
  (here `companyFilterAll`);
* the private static method `Job.#filterAll` from the jobs model
  (here `jobFilterAll`).

JavaScript objects are embedded as association lists in key-insertion order
(`Object.keys` / `Object.values` iteration order), and the scalar values that
occur in payloads and filter mappings as the type `JVal`.
-/

/-- Scalar JavaScript values appearing in request payloads and filter
mappings: strings, integer numbers and booleans. -/
inductive JVal where
  | str (s : String)
  | num (n : Int)
  | bool (b : Bool)
deriving DecidableEq

/-- JavaScript truthiness of a `JVal`: `""`, `0` and `false` are falsy,
everything else is truthy. -/
def JVal.truthy : JVal → Bool
  | .str s => s ≠ ""
  | .num n => n ≠ 0
  | .bool b => b

/-- JavaScript template-literal interpolation `${v}` of a `JVal`. -/
def JVal.interp : JVal → String
  | .str s => s
  | .num n => toString n
  | .bool b => if b then "true" else "false"

/-- JavaScript `ToNumber` coercion restricted to our value type; `none`
models `NaN`.  Strings are parsed as optionally-signed decimal integers
(the only numeric strings the app ever compares), the empty string
coerces to `0`. -/
def JVal.toNumber : JVal → Option Int
  | .num n => some n
  | .bool b => some (if b then 1 else 0)
  | .str s =>
    if s = "" then some 0
    else if s.data.all Char.isDigit then
      some (s.data.foldl (fun a c => a * 10 + (c.toNat - '0'.toNat)) 0 : Nat)
    else if s.data.head? = some '-' ∧ s.data.tail ≠ [] ∧ s.data.tail.all Char.isDigit then
      some (-((s.data.tail.foldl (fun a c => a * 10 + (c.toNat - '0'.toNat)) 0 : Nat) : Int))
    else none

/-- The JavaScript comparison `a >= b` on possibly-absent (`undefined`)
values: any comparison against `undefined` is false, two strings compare
lexicographically, otherwise both sides are coerced to numbers and a
`NaN` makes the comparison false. -/
def jsGE (a b : Option JVal) : Bool :=
  match a, b with
  | none, _ => false
  | _, none => false
  | some (.str x), some (.str y) => decide (y ≤ x)
  | some x, some y =>
    match x.toNumber, y.toNumber with
    | some m, some n => decide (n ≤ m)
    | _, _ => false

/-- The error classes of `expressError.js` that the embedded code can
throw. -/
inductive JoblyError where
  | badRequest (msg : String)
  | notFound (msg : String)
deriving DecidableEq

instance {ε α : Type} [DecidableEq ε] [DecidableEq α] : DecidableEq (Except ε α) := fun x y =>
  match x, y with
  | .error a, .error b => decidable_of_iff (a = b) (by simp)
  | .error _, .ok _ => isFalse (by simp)
  | .ok _, .error _ => isFalse (by simp)
  | .ok a, .ok b => decidable_of_iff (a = b) (by simp)

/-! ## `helpers/sql.js` : `sqlForPartialUpdate` -/

/-- The result object `{ setCols, values }` of `sqlForPartialUpdate`. -/
structure SqlUpdate where
  setCols : String
  values : List JVal
deriving DecidableEq

/-- The JavaScript expression `jsToSql[colName] || colName`: the alias if it
is present and truthy (for strings: non-empty), otherwise the key itself. -/
def jsOrKey (a : Option String) (key : String) : String :=
  match a with
  | some s => if s = "" then key else s
  | none => key

/-- Embedding of `sqlForPartialUpdate(dataToUpdate, jsToSql)` from
`helpers/sql.js`:

```js
const keys = Object.keys(dataToUpdate);
if (keys.length === 0) throw new BadRequestError("No data");
const cols = keys.map((colName, idx) =>
    `"${jsToSql[colName] || colName}"=$${idx + 1}`);
return { setCols: cols.join(", "), values: Object.values(dataToUpdate) };
```

`updateCols` is the `keys.map((colName, idx) => ...)` step. -/
def updateCols (keys : List String) (jsToSql : List (String × String)) : List String :=
  keys.enum.map fun p =>
    "\"" ++ jsOrKey (jsToSql.lookup p.2) p.2 ++ "\"=$" ++ toString (p.1 + 1)

def sqlForPartialUpdate (dataToUpdate : List (String × JVal))
    (jsToSql : List (String × String)) : Except JoblyError SqlUpdate :=
  let keys := dataToUpdate.map Prod.fst
  if keys.length = 0 then .error (.badRequest "No data")
  else
    .ok { setCols := String.intercalate ", " (updateCols keys jsToSql),
          values := dataToUpdate.map Prod.snd }

/-! ## `models/company.js` : `Company.#filterAll` -/

/-- The connector chosen for the `idx`-th filter entry in
`Company.#filterAll`: `` `${idx===0 ? '\nWHERE' : '\nAND'}` ``. -/
def companyConn (idx : Nat) : String :=
  if idx = 0 then "\nWHERE" else "\nAND"

/-- The predicate text for one filter entry in `Company.#filterAll`:

```js
val==='name' ?
  `lower(name) LIKE lower('%' || '${values[idx]}' || '%')` :
  `num_employees ${val==='minEmployees' ? `>=` : `<`} ${values[idx]}`
``` -/
def companyPred (key : String) (v : JVal) : String :=
  if key = "name" then
    "lower(name) LIKE lower('%' || '" ++ v.interp ++ "' || '%')"
  else
    "num_employees " ++ (if key = "minEmployees" then ">=" else "<") ++ " " ++ v.interp

/-- Embedding of `Company.#filterAll(filters)` from `models/company.js`:
returns `none` for a null argument (JS `undefined`), throws
`BadRequestError` when `filters.minEmployees >= filters.maxEmployees`, and
otherwise reduces the entries to a clause, each contributing
`connector ++ " " ++ predicate`. -/
def companyFilterAll (filters : Option (List (String × JVal))) :
    Except JoblyError (Option String) :=
  match filters with
  | none => .ok none
  | some fs =>
    if jsGE (fs.lookup "minEmployees") (fs.lookup "maxEmployees") then
      .error (.badRequest
        "instance.filters.maxEmployees must be greater than instance.filters.minEmployees")
    else
      .ok (some (String.join (fs.enum.map fun p =>
        companyConn p.1 ++ " " ++ companyPred p.2.1 p.2.2)))

/-! ## Jobs model : `Job.#filterAll` -/

/-- The connector chosen for the `idx`-th filter entry in `Job.#filterAll`:

```js
(idx===0 && values[idx]) ? '\nWHERE' :
  `${val==='hasEquity' && !values[idx] ? '' : '\nAND' }`
``` -/
def jobConn (idx : Nat) (key : String) (v : JVal) : String :=
  if idx = 0 ∧ v.truthy then "\nWHERE"
  else if key = "hasEquity" ∧ ¬v.truthy then "" else "\nAND"

/-- The predicate text for one filter entry in `Job.#filterAll`:

```js
val==='title' ?
  `lower(title) LIKE lower('%' || '${values[idx]}' || '%')` :
  `${val==='minSalary' ? `salary >= ${values[idx]}` :
    `${val==='hasEquity' && values[idx] ? 'equity > 0' : ''}`}`
``` -/
def jobPred (key : String) (v : JVal) : String :=
  if key = "title" then
    "lower(title) LIKE lower('%' || '" ++ v.interp ++ "' || '%')"
  else if key = "minSalary" then
    "salary >= " ++ v.interp
  else if key = "hasEquity" ∧ v.truthy then "equity > 0" else ""

/-- Embedding of `Job.#filterAll(filters)` from the jobs model: returns
`none` for a null argument, otherwise reduces the entries to a clause,
each contributing `connector ++ " " ++ predicate`. -/
def jobFilterAll (filters : Option (List (String × JVal))) : Option String :=
  match filters with
  | none => none
  | some fs =>
    some (String.join (fs.enum.map fun p =>
      jobConn p.1 p.2.1 p.2.2 ++ " " ++ jobPred p.2.1 p.2.2))

/-! ## Specification-side definitions -/

/-- The column-name resolution of the amended claim C5: a key resolves to its
alias when the alias map binds it to a non-empty string, and to the key
itself when the key is absent from the map or bound to the empty (falsy)
string. -/
def specResolveName (A : List (String × String)) (k : String) : String :=
  match A.lookup k with
  | some s => if s = "" then k else s
  | none => k

/-- One right-fold step of the placeholder scanner.  The state is the pair
of the maximal digit run starting at the current position and the
placeholder tokens found at or after the current position. -/
def phStep (c : Char) (st : List Char × List String) : List Char × List String :=
  if c.isDigit then (c :: st.1, st.2)
  else if c = '$' ∧ st.1 ≠ [] then ([], String.mk st.1 :: st.2)
  else ([], st.2)

/-- Scanner for positional SQL placeholders: collects, in order, the
(non-empty) digit run immediately following each `$`; a `$` with no digit
after it is not a placeholder. -/
def phTokens (l : List Char) : List String := (l.foldr phStep ([], [])).2

/-- The positional placeholders (`$1`, `$2`, …) occurring in a clause text,
in textual order, as their digit tokens. -/
def placeholders (s : String) : List String := phTokens s.data

/-! ## Basic facts -/

theorem sqlForPartialUpdate_cons (kv : String × JVal) (l : List (String × JVal))
    (A : List (String × String)) :
    sqlForPartialUpdate (kv :: l) A =
      .ok { setCols := String.intercalate ", " (updateCols ((kv :: l).map Prod.fst) A),
            values := (kv :: l).map Prod.snd } := rfl

/-! ## Claims -/

/-- Claim C1 (refuted by the code; evidence for the code bug): evaluating the
job filter compiler at `{hasEquity: false, title: "eng"}` prefixes the only
emitted predicate — the title substring match — with `AND`, not `WHERE`,
because the `WHERE` connector is chosen only when the entry at index 0 has a
truthy value. -/
theorem c1_dangling_AND_at_failing_input :
    jobFilterAll (some [("hasEquity", .bool false), ("title", .str "eng")]) =
      some " \nAND lower(title) LIKE lower('%' || 'eng' || '%')" := by decide

/-- Claim C3: `sqlForPartialUpdate` fails with `BadRequestError("No data")`
exactly when the payload has no keys, and any non-empty payload yields a
result. -/
theorem c3_empty_payload_error (P : List (String × JVal)) (A : List (String × String)) :
    (sqlForPartialUpdate P A = .error (.badRequest "No data") ↔ P = [])
    ∧ (P ≠ [] → ∃ r, sqlForPartialUpdate P A = .ok r) := by
  constructor
  · constructor
    · intro h
      cases P with
      | nil => rfl
      | cons kv l => rw [sqlForPartialUpdate_cons] at h; exact absurd h (by simp)
    · intro h; subst h; rfl
  · intro h
    cases P with
    | nil => exact absurd rfl h
    | cons kv l => exact ⟨_, sqlForPartialUpdate_cons kv l A⟩

theorem c3_empty_payload_error_witness :
    (sqlForPartialUpdate [] [] = .error (.badRequest "No data"))
    ∧ ∃ r, sqlForPartialUpdate [("age", .num 32)] [] = .ok r :=
  ⟨(c3_empty_payload_error [] []).1.mpr rfl,
   (c3_empty_payload_error [("age", .num 32)] []).2 (by decide)⟩

/-- Claim C4: `Company.#filterAll` throws `BadRequestError` exactly when both
employee bounds are present (as numbers) and `minEmployees >= maxEmployees`;
with at most one bound present no error is raised and a clause is
returned. -/
theorem c4_employee_range_validation (fs : List (String × JVal)) (mn mx : Int) :
    ((fs.lookup "minEmployees" = some (.num mn) ∧ fs.lookup "maxEmployees" = some (.num mx)) →
      (companyFilterAll (some fs) = .error (.badRequest
          "instance.filters.maxEmployees must be greater than instance.filters.minEmployees")
        ↔ mx ≤ mn))
    ∧ ((fs.lookup "minEmployees" = none ∨ fs.lookup "maxEmployees" = none) →
      ∃ c, companyFilterAll (some fs) = .ok (some c)) := by
  constructor
  · rintro ⟨h1, h2⟩
    have hge : jsGE (some (.num mn)) (some (.num mx)) = decide (mx ≤ mn) := rfl
    simp only [companyFilterAll, h1, h2, hge]
    by_cases h : mx ≤ mn
    · simp [h]
    · simp [h]
  · intro h
    have hge : jsGE (fs.lookup "minEmployees") (fs.lookup "maxEmployees") = false := by
      rcases h with h | h
      · rw [h]
        cases hm : fs.lookup "maxEmployees" with
        | none => rfl
        | some v => cases v <;> rfl
      · rw [h]
        cases hm : fs.lookup "minEmployees" with
        | none => rfl
        | some v => cases v <;> rfl
    simp [companyFilterAll, hge]

theorem c4_employee_range_validation_witness :
    ((companyFilterAll (some [("minEmployees", .num 10), ("maxEmployees", .num 5)]) =
        .error (.badRequest
          "instance.filters.maxEmployees must be greater than instance.filters.minEmployees")))
    ∧ ∃ c, companyFilterAll (some [("name", .str "net")]) = .ok (some c) :=
  ⟨((c4_employee_range_validation [("minEmployees", .num 10), ("maxEmployees", .num 5)]
      10 5).1 (by decide) |>.mpr (by decide)),
   (c4_employee_range_validation [("name", .str "net")] 0 0).2 (Or.inl (by decide))⟩

/-- Claim C5 (counterexample): for the alias map `{a: ""}` — where the key
`"a"` *is* present — the emitted column name is `"a"`, not the mapped value
`""`, because the code falls back on any falsy alias via `||`.  The claim as
stated would require the fragment `""=$1`; the code emits `"a"=$1`. -/
theorem c5_falsy_alias_counterexample :
    sqlForPartialUpdate [("a", .num 1)] [("a", "")] =
      .ok { setCols := "\"a\"=$1", values := [.num 1] }
    ∧ ("\"a\"=$1" : String) ≠ "\"\"=$1" := by decide

/-- Claim C5 (amended): the code's resolution `jsToSql[colName] || colName`
agrees with `specResolveName` everywhere, and for every non-empty payload the
emitted text consists of the quoted resolved names. -/
theorem c5_alias_resolution (P : List (String × JVal)) (A : List (String × String))
    (h : P ≠ []) :
    (∀ k, jsOrKey (A.lookup k) k = specResolveName A k)
    ∧ ∃ r, sqlForPartialUpdate P A = .ok r ∧
        r.setCols = String.intercalate ", " ((P.map Prod.fst).enum.map fun p =>
          "\"" ++ specResolveName A p.2 ++ "\"=$" ++ toString (p.1 + 1)) := by
  have hres : ∀ k, jsOrKey (A.lookup k) k = specResolveName A k := by
    intro k
    cases hA : A.lookup k <;> simp [jsOrKey, specResolveName, hA]
  refine ⟨hres, ?_⟩
  cases P with
  | nil => exact absurd rfl h
  | cons kv l =>
    refine ⟨_, sqlForPartialUpdate_cons kv l A, ?_⟩
    show String.intercalate ", " (updateCols ((kv :: l).map Prod.fst) A) = _
    unfold updateCols
    exact congrArg _ (List.map_congr_left fun p _ => by rw [hres])

theorem c5_alias_resolution_witness :
    ([("logoUrl", JVal.str "http")] ≠ [])
    ∧ ((∀ k, jsOrKey (List.lookup k [("logoUrl", "logo_url")]) k =
          specResolveName [("logoUrl", "logo_url")] k)
      ∧ ∃ r, sqlForPartialUpdate [("logoUrl", JVal.str "http")] [("logoUrl", "logo_url")] =
            .ok r ∧
          r.setCols = String.intercalate ", "
            (([("logoUrl", JVal.str "http")].map Prod.fst).enum.map fun p =>
              "\"" ++ specResolveName [("logoUrl", "logo_url")] p.2 ++ "\"=$" ++
                toString (p.1 + 1))) :=
  ⟨by decide, c5_alias_resolution [("logoUrl", JVal.str "http")] [("logoUrl", "logo_url")]
    (by decide)⟩

/-- Claim C6: in the job filter compiler, `hasEquity: true` emits the
predicate `equity > 0`; `hasEquity: false` emits no predicate and no
connector at all; and `{hasEquity: false}` as the sole filter yields a
clause with no text beyond whitespace (the code produces the single
separator space `" "`, whose every character is whitespace: an empty
clause with no dangling `WHERE`/`AND`). -/
theorem c6_hasEquity_emission (i : Nat) :
    jobPred "hasEquity" (.bool true) = "equity > 0"
    ∧ jobPred "hasEquity" (.bool false) = ""
    ∧ jobConn i "hasEquity" (.bool false) = ""
    ∧ jobFilterAll (some [("hasEquity", .bool true)]) = some "\nWHERE equity > 0"
    ∧ jobFilterAll (some [("hasEquity", .bool false)]) = some " "
    ∧ (" " : String).data.all Char.isWhitespace = true := by
  refine ⟨by decide, by decide, ?_, by decide, by decide, by decide⟩
  simp [jobConn, JVal.truthy]

/-- Claim C7: the emitted `setCols` text depends only on the payload's keys
(in order) and the alias map, never on the payload's values; the values
appear only in the returned parameter list. -/
theorem c7_text_independent_of_values (P₁ P₂ : List (String × JVal))
    (A : List (String × String)) (hk : P₁.map Prod.fst = P₂.map Prod.fst)
    (h1 : P₁ ≠ []) :
    ∃ r₁ r₂, sqlForPartialUpdate P₁ A = .ok r₁ ∧ sqlForPartialUpdate P₂ A = .ok r₂ ∧
      r₁.setCols = r₂.setCols ∧ r₁.values = P₁.map Prod.snd ∧
      r₂.values = P₂.map Prod.snd := by
  cases P₁ with
  | nil => exact absurd rfl h1
  | cons kv l =>
    cases P₂ with
    | nil => exact absurd hk (by simp)
    | cons kw m =>
      refine ⟨_, _, sqlForPartialUpdate_cons kv l A, sqlForPartialUpdate_cons kw m A,
        ?_, rfl, rfl⟩
      show String.intercalate ", " (updateCols ((kv :: l).map Prod.fst) A) =
        String.intercalate ", " (updateCols ((kw :: m).map Prod.fst) A)
      rw [hk]

theorem c7_text_independent_of_values_witness :
    ([("age", JVal.num 32)].map Prod.fst = [("age", JVal.str "old")].map Prod.fst)
    ∧ ([("age", JVal.num 32)] ≠ [])
    ∧ ∃ r₁ r₂, sqlForPartialUpdate [("age", JVal.num 32)] [] = .ok r₁ ∧
        sqlForPartialUpdate [("age", JVal.str "old")] [] = .ok r₂ ∧
        r₁.setCols = r₂.setCols ∧
        r₁.values = [("age", JVal.num 32)].map Prod.snd ∧
        r₂.values = [("age", JVal.str "old")].map Prod.snd :=
  ⟨by decide, by decide,
   c7_text_independent_of_values [("age", JVal.num 32)] [("age", JVal.str "old")] []
     (by decide) (by decide)⟩

/-- Claim C8: a job `title` filter emits a case-insensitive substring
comparison with the value interpolated into the text; in particular
`{title: "j1"}` (and any non-empty title value `s`) as the sole filter
yields `WHERE lower(title) LIKE lower('%' || '<s>' || '%')`, the SQL
equivalent of `WHERE lower(title) LIKE lower('%<s>%')`. -/
theorem c8_title_substring_match (s : String) (hs : s ≠ "") :
    jobPred "title" (.str s) = "lower(title) LIKE lower('%' || '" ++ s ++ "' || '%')"
    ∧ jobFilterAll (some [("title", .str s)]) =
        some ("\nWHERE lower(title) LIKE lower('%' || '" ++ s ++ "' || '%')") := by
  have hconn : jobConn 0 "title" (.str s) = "\nWHERE" := by
    rw [jobConn, if_pos ⟨rfl, by simp [JVal.truthy, hs]⟩]
  constructor
  · rfl
  · show some ("" ++ (jobConn 0 "title" (.str s) ++ " " ++ jobPred "title" (.str s))) = _
    rw [hconn]
    rfl

theorem c8_title_substring_match_witness :
    ("j1" ≠ "")
    ∧ (jobPred "title" (.str "j1") = "lower(title) LIKE lower('%' || '" ++ "j1" ++ "' || '%')"
      ∧ jobFilterAll (some [("title", .str "j1")]) =
          some ("\nWHERE lower(title) LIKE lower('%' || '" ++ "j1" ++ "' || '%')")) :=
  ⟨by decide, c8_title_substring_match "j1" (by decide)⟩

/-- Claim C9: a company `minEmployees` filter with value `v` emits
`num_employees >= v` and a `maxEmployees` filter emits the strict
`num_employees < v`, both per-entry and as whole sole-filter clauses. -/
theorem c9_employee_bound_predicates (v : Int) :
    companyPred "minEmployees" (.num v) = "num_employees >= " ++ toString v
    ∧ companyPred "maxEmployees" (.num v) = "num_employees < " ++ toString v
    ∧ companyFilterAll (some [("minEmployees", .num v)]) =
        .ok (some ("\nWHERE num_employees >= " ++ toString v))
    ∧ companyFilterAll (some [("maxEmployees", .num v)]) =
        .ok (some ("\nWHERE num_employees < " ++ toString v)) :=
  ⟨rfl, rfl, rfl, rfl⟩

/-- Claim C10: in `Company.#filterAll`, every filter key other than `name`
and `minEmployees` — in particular any unrecognized key — is compiled as if
it were `maxEmployees`, emitting `num_employees < value`: unknown keys are
neither rejected nor ignored. -/
theorem c10_unknown_keys_compiled_as_max (k : String) (v : JVal)
    (h1 : k ≠ "name") (h2 : k ≠ "minEmployees") :
    companyPred k v = "num_employees < " ++ v.interp
    ∧ companyFilterAll (some [("favoriteColor", .str "red")]) =
        .ok (some "\nWHERE num_employees < red") := by
  constructor
  · rw [companyPred, if_neg h1, if_neg h2]
    exact congrArg (fun x => x ++ v.interp)
      (by decide : ("num_employees " ++ "<" ++ " " : String) = "num_employees < ")
  · decide

theorem c10_unknown_keys_compiled_as_max_witness :
    ("favoriteColor" ≠ "name")
    ∧ ("favoriteColor" ≠ "minEmployees")
    ∧ (companyPred "favoriteColor" (.str "red") =
          "num_employees < " ++ JVal.interp (.str "red")
      ∧ companyFilterAll (some [("favoriteColor", .str "red")]) =
          .ok (some "\nWHERE num_employees < red")) :=
  ⟨by decide, by decide,
   c10_unknown_keys_compiled_as_max "favoriteColor" (.str "red") (by decide) (by decide)⟩

theorem phState_fst (l : List Char) :
    (l.foldr phStep ([], [])).1 = l.takeWhile Char.isDigit := by
  induction l with
  | nil => rfl
  | cons c l ih =>
    show (phStep c (l.foldr phStep ([], []))).1 = _
    by_cases hd : c.isDigit
    · simp [phStep, hd, ih, List.takeWhile_cons_of_pos]
    · simp only [phStep, hd, if_false, Bool.false_eq_true]
      rw [List.takeWhile_cons_of_neg (by simp [hd])]
      split <;> rfl

theorem phTokens_cons (c : Char) (l : List Char) :
    phTokens (c :: l) =
      if c = '$' ∧ l.takeWhile Char.isDigit ≠ [] then
        String.mk (l.takeWhile Char.isDigit) :: phTokens l
      else phTokens l := by
  show (phStep c (l.foldr phStep ([], []))).2 = _
  by_cases hd : c.isDigit
  · have hne : c ≠ '$' := by
      intro h; subst h; exact absurd hd (by decide)
    rw [if_neg (by rintro ⟨h, _⟩; exact hne h)]
    simp [phStep, hd, phTokens]
  · simp only [phStep, hd, if_false, Bool.false_eq_true, phState_fst, phTokens]
    split <;> rfl

theorem phTokens_cons_skip (c : Char) (l : List Char) (h : c ≠ '$') :
    phTokens (c :: l) = phTokens l := by
  rw [phTokens_cons, if_neg]
  rintro ⟨h1, _⟩
  exact h h1

theorem phTokens_append_skip (l m : List Char) (h : '$' ∉ l) :
    phTokens (l ++ m) = phTokens m := by
  induction l with
  | nil => rfl
  | cons c l ih =>
    rw [List.cons_append,
      phTokens_cons_skip c _ (fun hc => h (hc ▸ List.mem_cons_self c l)),
      ih (fun hm => h (List.mem_cons_of_mem c hm))]

theorem phTokens_dollar (ds m : List Char) (h1 : ds ≠ [])
    (h2 : ∀ c ∈ ds, c.isDigit = true)
    (h3 : ∀ c, m.head? = some c → c.isDigit = false) :
    phTokens ('$' :: (ds ++ m)) = String.mk ds :: phTokens m := by
  have htake : (ds ++ m).takeWhile Char.isDigit = ds := by
    rw [List.takeWhile_append_of_pos h2]
    cases m with
    | nil => simp
    | cons c m' =>
      rw [List.takeWhile_cons_of_neg (by simp [h3 c rfl])]
      simp
  have hskip : phTokens (ds ++ m) = phTokens m := by
    have : '$' ∉ ds := by
      intro hmem
      have := h2 '$' hmem
      exact absurd this (by decide)
    exact phTokens_append_skip ds m this
  rw [phTokens_cons, htake, if_pos ⟨rfl, h1⟩, hskip]

theorem digitChar_isDigit (k : Nat) (h : k < 10) : (Nat.digitChar k).isDigit = true := by
  have hall : ∀ j, j < 10 → (Nat.digitChar j).isDigit = true := by decide
  exact hall k h

theorem toDigitsCore_all_digits (fuel : Nat) : ∀ (n : Nat) (acc : List Char),
    (∀ c ∈ acc, c.isDigit = true) →
    ∀ c ∈ Nat.toDigitsCore 10 fuel n acc, c.isDigit = true := by
  induction fuel with
  | zero =>
    intro n acc hacc c hc
    rw [Nat.toDigitsCore] at hc
    exact hacc c hc
  | succ fuel ih =>
    intro n acc hacc c hc
    simp only [Nat.toDigitsCore] at hc
    have hd : (Nat.digitChar (n % 10)).isDigit = true :=
      digitChar_isDigit _ (Nat.mod_lt _ (by norm_num))
    have hacc' : ∀ x ∈ Nat.digitChar (n % 10) :: acc, x.isDigit = true := by
      intro x hx
      rcases List.mem_cons.mp hx with h | h
      · rw [h]; exact hd
      · exact hacc x h
    by_cases h0 : n / 10 = 0
    · rw [if_pos h0] at hc
      exact hacc' c hc
    · rw [if_neg h0] at hc
      exact ih (n / 10) _ hacc' c hc

theorem toDigitsCore_length (fuel : Nat) : ∀ (n : Nat) (acc : List Char),
    acc.length ≤ (Nat.toDigitsCore 10 fuel n acc).length := by
  induction fuel with
  | zero => intro n acc; rw [Nat.toDigitsCore]
  | succ fuel ih =>
    intro n acc
    simp only [Nat.toDigitsCore]
    by_cases h0 : n / 10 = 0
    · rw [if_pos h0]; simp
    · rw [if_neg h0]
      calc acc.length ≤ (Nat.digitChar (n % 10) :: acc).length := by simp
        _ ≤ _ := ih (n / 10) _

theorem repr_data_digits (n : Nat) :
    (Nat.repr n).data ≠ [] ∧ ∀ c ∈ (Nat.repr n).data, c.isDigit = true := by
  have hdata : (Nat.repr n).data = Nat.toDigitsCore 10 (n + 1) n [] := rfl
  constructor
  · rw [hdata]
    intro hnil
    have h1 : 1 ≤ (Nat.toDigitsCore 10 (n + 1) n []).length := by
      simp only [Nat.toDigitsCore]
      by_cases h0 : n / 10 = 0
      · rw [if_pos h0]; simp
      · rw [if_neg h0]
        simpa using toDigitsCore_length n (n / 10) [Nat.digitChar (n % 10)]
    rw [hnil] at h1
    simp at h1
  · rw [hdata]
    exact toDigitsCore_all_digits (n + 1) n [] (by intro c hc; exact absurd hc (List.not_mem_nil c))

theorem intercalate_go_data (sep : String) (l : List String) : ∀ acc : String,
    (String.intercalate.go acc sep l).data
      = acc.data ++ (l.map fun x => sep.data ++ x.data).flatten := by
  induction l with
  | nil => intro acc; simp [String.intercalate.go]
  | cons x xs ih =>
    intro acc
    rw [String.intercalate.go, ih]
    simp [String.data_append, List.append_assoc]

theorem intercalate_data_cons (sep a : String) (l : List String) :
    (String.intercalate sep (a :: l)).data
      = a.data ++ (l.map fun x => sep.data ++ x.data).flatten := by
  rw [String.intercalate, intercalate_go_data]

theorem sep_append_head_not_digit (D : List Char) :
    ∀ c, (((", " : String).data ++ D).head? = some c) → c.isDigit = false := by
  intro c hc
  have h : ((", " : String).data ++ D).head? = some ',' := rfl
  rw [h] at hc
  injection hc with h2
  subst h2
  decide

theorem fragment_split (name : String) (n : Nat) (T : List Char) :
    ("\"" ++ name ++ "\"=$" ++ toString n : String).data ++ T
      = '"' :: (name.data ++ ('"' :: '=' :: '$' :: ((Nat.repr n).data ++ T))) := by
  simp only [String.data_append, List.append_assoc, List.cons_append, List.nil_append]
  rfl

theorem ph_updateCols (A : List (String × String)) : ∀ (ks : List String) (i0 : Nat),
    (∀ k ∈ ks, '$' ∉ (jsOrKey (A.lookup k) k).data) →
    phTokens (String.intercalate ", " ((ks.enumFrom i0).map fun p =>
        "\"" ++ jsOrKey (A.lookup p.2) p.2 ++ "\"=$" ++ toString (p.1 + 1))).data
      = (List.range ks.length).map fun j => toString (i0 + j + 1) := by
  intro ks
  induction ks with
  | nil =>
    intro i0 _
    rfl
  | cons k ks ih =>
    intro i0 h
    have hk : '$' ∉ (jsOrKey (A.lookup k) k).data := h k (List.mem_cons_self k ks)
    have hks : ∀ k' ∈ ks, '$' ∉ (jsOrKey (A.lookup k') k').data :=
      fun k' hk' => h k' (List.mem_cons_of_mem k hk')
    have hrepr := repr_data_digits (i0 + 1)
    have hmk : String.mk (Nat.repr (i0 + 1)).data = toString (i0 + 1) := rfl
    rw [List.enumFrom_cons, List.map_cons, intercalate_data_cons]
    rw [fragment_split, phTokens_cons_skip _ _ (by decide),
      phTokens_append_skip _ _ hk, phTokens_cons_skip _ _ (by decide),
      phTokens_cons_skip _ _ (by decide)]
    cases ks with
    | nil =>
      rw [phTokens_dollar _ _ hrepr.1 hrepr.2
        (fun c hc => by rw [List.enumFrom_nil, List.map_nil, List.map_nil,
          List.flatten_nil] at hc; exact absurd hc (by simp)), hmk]
      rfl
    | cons k2 ks2 =>
      have hT : ((((k2 :: ks2).enumFrom (i0 + 1)).map fun p =>
            "\"" ++ jsOrKey (A.lookup p.2) p.2 ++ "\"=$" ++ toString (p.1 + 1)).map
              fun x => (", " : String).data ++ x.data).flatten
          = (", " : String).data ++ (String.intercalate ", "
              (((k2 :: ks2).enumFrom (i0 + 1)).map fun p =>
                "\"" ++ jsOrKey (A.lookup p.2) p.2 ++ "\"=$" ++ toString (p.1 + 1))).data := by
        rw [List.enumFrom_cons, List.map_cons, List.map_cons, List.flatten_cons,
          intercalate_data_cons, List.append_assoc]
      rw [hT, phTokens_dollar _ _ hrepr.1 hrepr.2 (sep_append_head_not_digit _), hmk,
        phTokens_append_skip _ _ (by decide), ih (i0 + 1) hks]
      conv_rhs => rw [List.length_cons, List.range_succ_eq_map, List.map_cons, List.map_map]
      refine congrArg₂ List.cons ?_ ?_
      · exact congrArg toString (by omega)
      · exact List.map_congr_left fun j _ => congrArg toString (by omega)

/-- Claim C2: for every non-empty payload `P` and alias map `A` whose
resolved column names contain no `$` character, `sqlForPartialUpdate P A`
returns the values of `P` in key-iteration order as its parameter list, and
a text whose positional placeholders are exactly `$1..$n` — one per
parameter, in parameter order, with no gaps or repeats. -/
theorem c2_placeholder_numbering (P : List (String × JVal)) (A : List (String × String))
    (hne : P ≠ [])
    (hnames : ∀ k ∈ P.map Prod.fst, '$' ∉ (jsOrKey (A.lookup k) k).data) :
    ∃ r, sqlForPartialUpdate P A = .ok r ∧
      r.values = P.map Prod.snd ∧
      placeholders r.setCols = (List.range P.length).map (fun j => toString (j + 1)) ∧
      (placeholders r.setCols).length = r.values.length := by
  cases P with
  | nil => exact absurd rfl hne
  | cons kv l =>
    have henum : updateCols ((kv :: l).map Prod.fst) A
        = (((kv :: l).map Prod.fst).enumFrom 0).map fun p =>
            "\"" ++ jsOrKey (A.lookup p.2) p.2 ++ "\"=$" ++ toString (p.1 + 1) := rfl
    have hph : placeholders (String.intercalate ", " (updateCols ((kv :: l).map Prod.fst) A))
        = (List.range (kv :: l).length).map (fun j => toString (j + 1)) := by
      rw [placeholders, henum, ph_updateCols A _ 0 hnames, List.length_map]
      exact List.map_congr_left fun j _ => congrArg toString (by omega)
    refine ⟨_, sqlForPartialUpdate_cons kv l A, rfl, hph, ?_⟩
    rw [hph]
    simp

theorem c2_placeholder_numbering_witness :
    ([("firstName", JVal.str "Aliya"), ("age", JVal.num 32)] ≠ [])
    ∧ (∀ k ∈ [("firstName", JVal.str "Aliya"), ("age", JVal.num 32)].map Prod.fst,
        '$' ∉ (jsOrKey (List.lookup k [("firstName", "first_name")]) k).data)
    ∧ ∃ r, sqlForPartialUpdate [("firstName", JVal.str "Aliya"), ("age", JVal.num 32)]
          [("firstName", "first_name")] = .ok r ∧
        r.values = [("firstName", JVal.str "Aliya"), ("age", JVal.num 32)].map Prod.snd ∧
        placeholders r.setCols =
          (List.range [("firstName", JVal.str "Aliya"), ("age", JVal.num 32)].length).map
            (fun j => toString (j + 1)) ∧
        (placeholders r.setCols).length = r.values.length :=
  ⟨by decide, by decide,
   c2_placeholder_numbering [("firstName", JVal.str "Aliya"), ("age", JVal.num 32)]
     [("firstName", "first_name")] (by decide) (by decide)⟩
